import Mathlib

/-!
Shallow embedding of the `paropt` example scripts.

The repository holds two standalone scripts:
 * `src/examples/trajectory/brachistochrone/brachistochrone.py`, whose one
   computational component is `BrachistochroneODE` (an OpenMDAO explicit
   component with `setup`, `compute` and `compute_partials`), followed by
   command-line parsing and driver-option selection;
 * `src/examples/openmdao/paraboloid_min.py`, a paraboloid minimisation with
   a single `--algorithm` command-line flag validated by argparse `choices`.

Arrays of node values are embedded as `List ℝ`; the numpy elementwise
product of two arrays is fallible (shapes must agree), so it returns an
`Option`; scalar broadcasting (`g * cos_theta`, `-g * sin_theta`) is total.
-/

namespace Paropt

/-- Elementwise `np.cos` on a node array. -/
noncomputable def npCos (xs : List ℝ) : List ℝ := xs.map Real.cos

/-- Elementwise `np.sin` on a node array. -/
noncomputable def npSin (xs : List ℝ) : List ℝ := xs.map Real.sin

/-- Elementwise numpy negation `-v`. -/
def npNeg (xs : List ℝ) : List ℝ := xs.map (fun x => -x)

/-- Numpy product of a broadcast scalar with a node array, e.g. `g * cos_theta`. -/
def npScale (a : ℝ) (xs : List ℝ) : List ℝ := xs.map (fun x => a * x)

/-- Numpy elementwise product of two node arrays; fails when the shapes differ. -/
def npMul (a b : List ℝ) : Option (List ℝ) :=
  if a.length = b.length then some (List.zipWith (fun x y => x * y) a b) else none

/-- The three output arrays written by `BrachistochroneODE.compute`. -/
structure RateOutputs where
  xdot : List ℝ
  ydot : List ℝ
  vdot : List ℝ

instance : Inhabited RateOutputs := ⟨⟨[], [], []⟩⟩

/-- Embedding of `BrachistochroneODE.compute`: reads `theta`, `g`, `v`, takes
elementwise cosine and sine of `theta`, and writes
`vdot = g * cos_theta`, `xdot = v * sin_theta`, `ydot = -v * cos_theta`. -/
noncomputable def compute (v theta : List ℝ) (g : ℝ) : Option RateOutputs := do
  let cos_theta := npCos theta
  let sin_theta := npSin theta
  let vdot := npScale g cos_theta
  let xdot ← npMul v sin_theta
  let ydot ← npMul (npNeg v) cos_theta
  pure ⟨xdot, ydot, vdot⟩

/-- The six Jacobian value arrays written by `BrachistochroneODE.compute_partials`,
one per `declare_partials` pair, named `<of>_<wrt>`. -/
structure JacOutputs where
  vdot_g : List ℝ
  vdot_theta : List ℝ
  xdot_v : List ℝ
  xdot_theta : List ℝ
  ydot_v : List ℝ
  ydot_theta : List ℝ

instance : Inhabited JacOutputs := ⟨⟨[], [], [], [], [], []⟩⟩

/-- Embedding of `BrachistochroneODE.compute_partials`:
`jacobian['vdot','g'] = cos_theta`, `jacobian['vdot','theta'] = -g * sin_theta`,
`jacobian['xdot','v'] = sin_theta`, `jacobian['xdot','theta'] = v * cos_theta`,
`jacobian['ydot','v'] = -cos_theta`, `jacobian['ydot','theta'] = v * sin_theta`. -/
noncomputable def compute_partials (v theta : List ℝ) (g : ℝ) : Option JacOutputs := do
  let cos_theta := npCos theta
  let sin_theta := npSin theta
  let vdot_g := cos_theta
  let vdot_theta := npScale (-g) sin_theta
  let xdot_v := sin_theta
  let xdot_theta ← npMul v cos_theta
  let ydot_v := npNeg cos_theta
  let ydot_theta ← npMul v sin_theta
  pure ⟨vdot_g, vdot_theta, xdot_v, xdot_theta, ydot_v, ydot_theta⟩

/-- Successful result of `compute`, with the default for the impossible case. -/
noncomputable def computeD (v theta : List ℝ) (g : ℝ) : RateOutputs :=
  (compute v theta g).getD default

/-- Successful result of `compute_partials`, with the default for the impossible case. -/
noncomputable def partialsD (v theta : List ℝ) (g : ℝ) : JacOutputs :=
  (compute_partials v theta g).getD default

/- Helper lemmas on list indexing (with `getD` at default `0`). -/

theorem list_getD_map (f : ℝ → ℝ) (xs : List ℝ) (i : ℕ) (hi : i < xs.length) :
    (xs.map f).getD i 0 = f (xs.getD i 0) := by
  rw [List.getD_eq_getElem _ _ (by simpa using hi), List.getD_eq_getElem _ _ hi,
    List.getElem_map]

theorem list_getD_zipWith (f : ℝ → ℝ → ℝ) (a b : List ℝ) (i : ℕ)
    (ha : i < a.length) (hb : i < b.length) :
    (List.zipWith f a b).getD i 0 = f (a.getD i 0) (b.getD i 0) := by
  rw [List.getD_eq_getElem _ _ (by simp [List.length_zipWith]; omega),
    List.getD_eq_getElem _ _ ha, List.getD_eq_getElem _ _ hb, List.getElem_zipWith]

theorem list_getD_set_ne (xs : List ℝ) (i j : ℕ) (x : ℝ) (hij : i ≠ j)
    (hi : i < xs.length) :
    (xs.set j x).getD i 0 = xs.getD i 0 := by
  rw [List.getD_eq_getElem _ _ (by simpa using hi), List.getD_eq_getElem _ _ hi,
    List.getElem_set_ne (by omega)]

theorem list_getD_set_self (xs : List ℝ) (i : ℕ) (x : ℝ) (hi : i < xs.length) :
    (xs.set i x).getD i 0 = x := by
  rw [List.getD_eq_getElem _ _ (by simpa using hi), List.getElem_set_self]

/- `compute` and `compute_partials` succeed exactly when the shapes agree,
and then every array is the closed-form expression from the source. -/

theorem compute_eq_some (v theta : List ℝ) (g : ℝ) (h : v.length = theta.length) :
    compute v theta g =
      some ⟨List.zipWith (fun x y => x * y) v (npSin theta),
            List.zipWith (fun x y => x * y) (npNeg v) (npCos theta),
            npScale g (npCos theta)⟩ := by
  simp [compute, npMul, npSin, npCos, npNeg, h]

theorem partials_eq_some (v theta : List ℝ) (g : ℝ) (h : v.length = theta.length) :
    compute_partials v theta g =
      some ⟨npCos theta, npScale (-g) (npSin theta), npSin theta,
            List.zipWith (fun x y => x * y) v (npCos theta),
            npNeg (npCos theta),
            List.zipWith (fun x y => x * y) v (npSin theta)⟩ := by
  simp [compute_partials, npMul, npSin, npCos, h]

/- Elementwise values of the outputs, for a node index in range. -/

theorem computeD_vdot (v theta : List ℝ) (g : ℝ) (h : v.length = theta.length)
    (i : ℕ) (hi : i < theta.length) :
    (computeD v theta g).vdot.getD i 0 = g * Real.cos (theta.getD i 0) := by
  rw [computeD, compute_eq_some v theta g h]
  simp only [Option.getD_some, npScale, npCos, List.map_map]
  exact list_getD_map _ theta i hi

theorem computeD_xdot (v theta : List ℝ) (g : ℝ) (h : v.length = theta.length)
    (i : ℕ) (hi : i < theta.length) :
    (computeD v theta g).xdot.getD i 0 =
      v.getD i 0 * Real.sin (theta.getD i 0) := by
  rw [computeD, compute_eq_some v theta g h]
  simp only [Option.getD_some]
  rw [list_getD_zipWith _ _ _ _ (by omega) (by simp [npSin]; omega), npSin,
    list_getD_map _ theta i hi]

theorem computeD_ydot (v theta : List ℝ) (g : ℝ) (h : v.length = theta.length)
    (i : ℕ) (hi : i < theta.length) :
    (computeD v theta g).ydot.getD i 0 =
      -v.getD i 0 * Real.cos (theta.getD i 0) := by
  rw [computeD, compute_eq_some v theta g h]
  simp only [Option.getD_some]
  rw [list_getD_zipWith _ _ _ _ (by simp [npNeg]; omega) (by simp [npCos]; omega),
    npCos, npNeg, list_getD_map _ theta i hi, list_getD_map _ v i (by omega)]

theorem computeD_lengths (v theta : List ℝ) (g : ℝ) (h : v.length = theta.length) :
    (computeD v theta g).xdot.length = theta.length ∧
    (computeD v theta g).ydot.length = theta.length ∧
    (computeD v theta g).vdot.length = theta.length := by
  rw [computeD, compute_eq_some v theta g h]
  simp [npSin, npCos, npNeg, npScale, h]

/-- C1: for every node count `N ≥ 1` and inputs `v`, `theta` of length `N` and
gravity `g`, `compute` succeeds and returns exactly three length-`N` arrays with
`vdot[i] = g * cos (theta[i])`, `xdot[i] = v[i] * sin (theta[i])` and
`ydot[i] = -v[i] * cos (theta[i])` at every node `i < N`. -/
theorem compute_rates_correct (v theta : List ℝ) (g : ℝ) (N : ℕ) (hN : 1 ≤ N)
    (hv : v.length = N) (ht : theta.length = N) :
    compute v theta g = some (computeD v theta g) ∧
    (computeD v theta g).xdot.length = N ∧
    (computeD v theta g).ydot.length = N ∧
    (computeD v theta g).vdot.length = N ∧
    ∀ i, i < N →
      (computeD v theta g).vdot.getD i 0 = g * Real.cos (theta.getD i 0) ∧
      (computeD v theta g).xdot.getD i 0 = v.getD i 0 * Real.sin (theta.getD i 0) ∧
      (computeD v theta g).ydot.getD i 0 = -v.getD i 0 * Real.cos (theta.getD i 0) := by
  have h : v.length = theta.length := by omega
  obtain ⟨l1, l2, l3⟩ := computeD_lengths v theta g h
  refine ⟨?_, by omega, by omega, by omega, fun i hi => ?_⟩
  · rw [computeD, compute_eq_some v theta g h]
    rfl
  · exact ⟨computeD_vdot v theta g h i (by omega),
      computeD_xdot v theta g h i (by omega),
      computeD_ydot v theta g h i (by omega)⟩

/-- Witness for C1 at `N = 1`, `v = [5]`, `theta = [0]`, `g = 2`. -/
theorem compute_rates_correct_witness :
    compute [(5 : ℝ)] [0] 2 = some (computeD [(5 : ℝ)] [0] 2) ∧
    (computeD [(5 : ℝ)] [0] 2).xdot.length = 1 ∧
    (computeD [(5 : ℝ)] [0] 2).ydot.length = 1 ∧
    (computeD [(5 : ℝ)] [0] 2).vdot.length = 1 ∧
    ∀ i, i < 1 →
      (computeD [(5 : ℝ)] [0] 2).vdot.getD i 0 =
        2 * Real.cos (([0] : List ℝ).getD i 0) ∧
      (computeD [(5 : ℝ)] [0] 2).xdot.getD i 0 =
        ([(5 : ℝ)] : List ℝ).getD i 0 * Real.sin (([0] : List ℝ).getD i 0) ∧
      (computeD [(5 : ℝ)] [0] 2).ydot.getD i 0 =
        -([(5 : ℝ)] : List ℝ).getD i 0 * Real.cos (([0] : List ℝ).getD i 0) :=
  compute_rates_correct [5] [0] 2 1 (by norm_num) rfl rfl

/- Elementwise values of the six Jacobian arrays. -/

theorem partialsD_vdot_g (v theta : List ℝ) (g : ℝ) (h : v.length = theta.length)
    (i : ℕ) (hi : i < theta.length) :
    (partialsD v theta g).vdot_g.getD i 0 = Real.cos (theta.getD i 0) := by
  rw [partialsD, partials_eq_some v theta g h]
  simp only [Option.getD_some, npCos]
  exact list_getD_map _ theta i hi

theorem partialsD_vdot_theta (v theta : List ℝ) (g : ℝ) (h : v.length = theta.length)
    (i : ℕ) (hi : i < theta.length) :
    (partialsD v theta g).vdot_theta.getD i 0 = -g * Real.sin (theta.getD i 0) := by
  rw [partialsD, partials_eq_some v theta g h]
  simp only [Option.getD_some, npScale, npSin, List.map_map]
  exact list_getD_map _ theta i hi

theorem partialsD_xdot_v (v theta : List ℝ) (g : ℝ) (h : v.length = theta.length)
    (i : ℕ) (hi : i < theta.length) :
    (partialsD v theta g).xdot_v.getD i 0 = Real.sin (theta.getD i 0) := by
  rw [partialsD, partials_eq_some v theta g h]
  simp only [Option.getD_some, npSin]
  exact list_getD_map _ theta i hi

theorem partialsD_xdot_theta (v theta : List ℝ) (g : ℝ) (h : v.length = theta.length)
    (i : ℕ) (hi : i < theta.length) :
    (partialsD v theta g).xdot_theta.getD i 0 =
      v.getD i 0 * Real.cos (theta.getD i 0) := by
  rw [partialsD, partials_eq_some v theta g h]
  simp only [Option.getD_some]
  rw [list_getD_zipWith _ _ _ _ (by omega) (by simp [npCos]; omega), npCos,
    list_getD_map _ theta i hi]

theorem partialsD_ydot_v (v theta : List ℝ) (g : ℝ) (h : v.length = theta.length)
    (i : ℕ) (hi : i < theta.length) :
    (partialsD v theta g).ydot_v.getD i 0 = -Real.cos (theta.getD i 0) := by
  rw [partialsD, partials_eq_some v theta g h]
  simp only [Option.getD_some, npNeg, npCos, List.map_map]
  exact list_getD_map _ theta i hi

theorem partialsD_ydot_theta (v theta : List ℝ) (g : ℝ) (h : v.length = theta.length)
    (i : ℕ) (hi : i < theta.length) :
    (partialsD v theta g).ydot_theta.getD i 0 =
      v.getD i 0 * Real.sin (theta.getD i 0) := by
  rw [partialsD, partials_eq_some v theta g h]
  simp only [Option.getD_some]
  rw [list_getD_zipWith _ _ _ _ (by omega) (by simp [npSin]; omega), npSin,
    list_getD_map _ theta i hi]

theorem partialsD_lengths (v theta : List ℝ) (g : ℝ) (h : v.length = theta.length) :
    (partialsD v theta g).vdot_g.length = theta.length ∧
    (partialsD v theta g).vdot_theta.length = theta.length ∧
    (partialsD v theta g).xdot_v.length = theta.length ∧
    (partialsD v theta g).xdot_theta.length = theta.length ∧
    (partialsD v theta g).ydot_v.length = theta.length ∧
    (partialsD v theta g).ydot_theta.length = theta.length := by
  rw [partialsD, partials_eq_some v theta g h]
  simp [npSin, npCos, npNeg, npScale, h]

/-- C2: for every node count `N ≥ 1` and inputs `v`, `theta` of length `N` and
gravity `g`, `compute_partials` succeeds and fills exactly six length-`N`
arrays with, at every node `i < N`: `d vdot/d g = cos (theta[i])`,
`d vdot/d theta = -g * sin (theta[i])`, `d xdot/d v = sin (theta[i])`,
`d xdot/d theta = v[i] * cos (theta[i])`, `d ydot/d v = -cos (theta[i])`,
`d ydot/d theta = v[i] * sin (theta[i])`. -/
theorem compute_partials_correct (v theta : List ℝ) (g : ℝ) (N : ℕ) (hN : 1 ≤ N)
    (hv : v.length = N) (ht : theta.length = N) :
    compute_partials v theta g = some (partialsD v theta g) ∧
    (partialsD v theta g).vdot_g.length = N ∧
    (partialsD v theta g).vdot_theta.length = N ∧
    (partialsD v theta g).xdot_v.length = N ∧
    (partialsD v theta g).xdot_theta.length = N ∧
    (partialsD v theta g).ydot_v.length = N ∧
    (partialsD v theta g).ydot_theta.length = N ∧
    ∀ i, i < N →
      (partialsD v theta g).vdot_g.getD i 0 = Real.cos (theta.getD i 0) ∧
      (partialsD v theta g).vdot_theta.getD i 0 = -g * Real.sin (theta.getD i 0) ∧
      (partialsD v theta g).xdot_v.getD i 0 = Real.sin (theta.getD i 0) ∧
      (partialsD v theta g).xdot_theta.getD i 0 =
        v.getD i 0 * Real.cos (theta.getD i 0) ∧
      (partialsD v theta g).ydot_v.getD i 0 = -Real.cos (theta.getD i 0) ∧
      (partialsD v theta g).ydot_theta.getD i 0 =
        v.getD i 0 * Real.sin (theta.getD i 0) := by
  have h : v.length = theta.length := by omega
  obtain ⟨l1, l2, l3, l4, l5, l6⟩ := partialsD_lengths v theta g h
  refine ⟨?_, by omega, by omega, by omega, by omega, by omega, by omega,
    fun i hi => ?_⟩
  · rw [partialsD, partials_eq_some v theta g h]
    rfl
  · exact ⟨partialsD_vdot_g v theta g h i (by omega),
      partialsD_vdot_theta v theta g h i (by omega),
      partialsD_xdot_v v theta g h i (by omega),
      partialsD_xdot_theta v theta g h i (by omega),
      partialsD_ydot_v v theta g h i (by omega),
      partialsD_ydot_theta v theta g h i (by omega)⟩

/-- Witness for C2 at `N = 1`, `v = [5]`, `theta = [0]`, `g = 2`. -/
theorem compute_partials_correct_witness :
    compute_partials [(5 : ℝ)] [0] 2 = some (partialsD [(5 : ℝ)] [0] 2) ∧
    (partialsD [(5 : ℝ)] [0] 2).vdot_g.length = 1 ∧
    (partialsD [(5 : ℝ)] [0] 2).vdot_theta.length = 1 ∧
    (partialsD [(5 : ℝ)] [0] 2).xdot_v.length = 1 ∧
    (partialsD [(5 : ℝ)] [0] 2).xdot_theta.length = 1 ∧
    (partialsD [(5 : ℝ)] [0] 2).ydot_v.length = 1 ∧
    (partialsD [(5 : ℝ)] [0] 2).ydot_theta.length = 1 ∧
    ∀ i, i < 1 →
      (partialsD [(5 : ℝ)] [0] 2).vdot_g.getD i 0 =
        Real.cos (([0] : List ℝ).getD i 0) ∧
      (partialsD [(5 : ℝ)] [0] 2).vdot_theta.getD i 0 =
        -2 * Real.sin (([0] : List ℝ).getD i 0) ∧
      (partialsD [(5 : ℝ)] [0] 2).xdot_v.getD i 0 =
        Real.sin (([0] : List ℝ).getD i 0) ∧
      (partialsD [(5 : ℝ)] [0] 2).xdot_theta.getD i 0 =
        ([(5 : ℝ)] : List ℝ).getD i 0 * Real.cos (([0] : List ℝ).getD i 0) ∧
      (partialsD [(5 : ℝ)] [0] 2).ydot_v.getD i 0 =
        -Real.cos (([0] : List ℝ).getD i 0) ∧
      (partialsD [(5 : ℝ)] [0] 2).ydot_theta.getD i 0 =
        ([(5 : ℝ)] : List ℝ).getD i 0 * Real.sin (([0] : List ℝ).getD i 0) :=
  compute_partials_correct [5] [0] 2 1 (by norm_num) rfl rfl

/-- C3: the Jacobian is exact over the reals. At every node `i`, each of the six
values stored by `compute_partials` is the true derivative of the corresponding
output of `compute` with respect to the corresponding input at that node
(the scalar `g`, or the node-`i` entry of `v` or `theta`). -/
theorem jacobian_exact (v theta : List ℝ) (g : ℝ) (N : ℕ)
    (hv : v.length = N) (ht : theta.length = N) (i : ℕ) (hi : i < N) :
    HasDerivAt (fun x => (computeD v theta x).vdot.getD i 0)
      ((partialsD v theta g).vdot_g.getD i 0) g ∧
    HasDerivAt (fun t => (computeD v (theta.set i t) g).vdot.getD i 0)
      ((partialsD v theta g).vdot_theta.getD i 0) (theta.getD i 0) ∧
    HasDerivAt (fun x => (computeD (v.set i x) theta g).xdot.getD i 0)
      ((partialsD v theta g).xdot_v.getD i 0) (v.getD i 0) ∧
    HasDerivAt (fun t => (computeD v (theta.set i t) g).xdot.getD i 0)
      ((partialsD v theta g).xdot_theta.getD i 0) (theta.getD i 0) ∧
    HasDerivAt (fun x => (computeD (v.set i x) theta g).ydot.getD i 0)
      ((partialsD v theta g).ydot_v.getD i 0) (v.getD i 0) ∧
    HasDerivAt (fun t => (computeD v (theta.set i t) g).ydot.getD i 0)
      ((partialsD v theta g).ydot_theta.getD i 0) (theta.getD i 0) := by
  have h : v.length = theta.length := by omega
  have hit : i < theta.length := by omega
  have hiv : i < v.length := by omega
  have hts : ∀ t : ℝ, v.length = (theta.set i t).length := by
    intro t; rw [List.length_set]; exact h
  have hvs : ∀ x : ℝ, (v.set i x).length = theta.length := by
    intro x; rw [List.length_set]; exact h
  have hits : ∀ t : ℝ, i < (theta.set i t).length := by
    intro t; rw [List.length_set]; exact hit
  refine ⟨?_, ?_, ?_, ?_, ?_, ?_⟩
  · have e : (fun x : ℝ => (computeD v theta x).vdot.getD i 0) =
        fun x => x * Real.cos (theta.getD i 0) :=
      funext fun x => computeD_vdot v theta x h i hit
    rw [e, partialsD_vdot_g v theta g h i hit]
    exact hasDerivAt_mul_const _
  · have e : (fun t : ℝ => (computeD v (theta.set i t) g).vdot.getD i 0) =
        fun t => g * Real.cos t := by
      funext t
      rw [computeD_vdot v (theta.set i t) g (hts t) i (hits t),
        list_getD_set_self theta i t hit]
    rw [e, partialsD_vdot_theta v theta g h i hit]
    have := (Real.hasDerivAt_cos (theta.getD i 0)).const_mul g
    convert this using 1
    ring
  · have e : (fun x : ℝ => (computeD (v.set i x) theta g).xdot.getD i 0) =
        fun x => x * Real.sin (theta.getD i 0) := by
      funext x
      rw [computeD_xdot (v.set i x) theta g (hvs x) i hit,
        list_getD_set_self v i x hiv]
    rw [e, partialsD_xdot_v v theta g h i hit]
    exact hasDerivAt_mul_const _
  · have e : (fun t : ℝ => (computeD v (theta.set i t) g).xdot.getD i 0) =
        fun t => v.getD i 0 * Real.sin t := by
      funext t
      rw [computeD_xdot v (theta.set i t) g (hts t) i (hits t),
        list_getD_set_self theta i t hit]
    rw [e, partialsD_xdot_theta v theta g h i hit]
    exact (Real.hasDerivAt_sin (theta.getD i 0)).const_mul (v.getD i 0)
  · have e : (fun x : ℝ => (computeD (v.set i x) theta g).ydot.getD i 0) =
        fun x => -(x * Real.cos (theta.getD i 0)) := by
      funext x
      rw [computeD_ydot (v.set i x) theta g (hvs x) i hit,
        list_getD_set_self v i x hiv]
      ring
    rw [e, partialsD_ydot_v v theta g h i hit]
    exact (hasDerivAt_mul_const _).neg
  · have e : (fun t : ℝ => (computeD v (theta.set i t) g).ydot.getD i 0) =
        fun t => -v.getD i 0 * Real.cos t := by
      funext t
      rw [computeD_ydot v (theta.set i t) g (hts t) i (hits t),
        list_getD_set_self theta i t hit]
    rw [e, partialsD_ydot_theta v theta g h i hit]
    have := (Real.hasDerivAt_cos (theta.getD i 0)).const_mul (-v.getD i 0)
    convert this using 1
    ring

/-- Witness for C3 at `N = 1`, `v = [2]`, `theta = [0]`, `g = 3`, node `i = 0`. -/
theorem jacobian_exact_witness :
    HasDerivAt (fun x => (computeD [(2 : ℝ)] [0] x).vdot.getD 0 0)
      ((partialsD [(2 : ℝ)] [0] 3).vdot_g.getD 0 0) 3 ∧
    HasDerivAt (fun t => (computeD [(2 : ℝ)] (([0] : List ℝ).set 0 t) 3).vdot.getD 0 0)
      ((partialsD [(2 : ℝ)] [0] 3).vdot_theta.getD 0 0) (([0] : List ℝ).getD 0 0) ∧
    HasDerivAt (fun x => (computeD (([(2 : ℝ)] : List ℝ).set 0 x) [0] 3).xdot.getD 0 0)
      ((partialsD [(2 : ℝ)] [0] 3).xdot_v.getD 0 0) (([(2 : ℝ)] : List ℝ).getD 0 0) ∧
    HasDerivAt (fun t => (computeD [(2 : ℝ)] (([0] : List ℝ).set 0 t) 3).xdot.getD 0 0)
      ((partialsD [(2 : ℝ)] [0] 3).xdot_theta.getD 0 0) (([0] : List ℝ).getD 0 0) ∧
    HasDerivAt (fun x => (computeD (([(2 : ℝ)] : List ℝ).set 0 x) [0] 3).ydot.getD 0 0)
      ((partialsD [(2 : ℝ)] [0] 3).ydot_v.getD 0 0) (([(2 : ℝ)] : List ℝ).getD 0 0) ∧
    HasDerivAt (fun t => (computeD [(2 : ℝ)] (([0] : List ℝ).set 0 t) 3).ydot.getD 0 0)
      ((partialsD [(2 : ℝ)] [0] 3).ydot_theta.getD 0 0) (([0] : List ℝ).getD 0 0) :=
  jacobian_exact [2] [0] 3 1 rfl rfl 0 (by norm_num)

/-- One `declare_partials(of=..., wrt=..., rows=..., cols=...)` record. -/
structure PartialDecl where
  of : String
  wrt : String
  rows : List ℕ
  cols : List ℕ
deriving DecidableEq

/-- Embedding of the `declare_partials` calls in `BrachistochroneODE.setup`:
with `arange = np.arange(num_nodes)`, the pair `(vdot, g)` is declared with
`rows = arange, cols = np.zeros(nn)`, and the five other pairs with
`rows = arange, cols = arange`. -/
def setup (nn : ℕ) : List PartialDecl :=
  [⟨"vdot", "g", List.range nn, List.replicate nn 0⟩,
   ⟨"vdot", "theta", List.range nn, List.range nn⟩,
   ⟨"xdot", "v", List.range nn, List.range nn⟩,
   ⟨"xdot", "theta", List.range nn, List.range nn⟩,
   ⟨"ydot", "v", List.range nn, List.range nn⟩,
   ⟨"ydot", "theta", List.range nn, List.range nn⟩]

/-- Component state: the `num_nodes` option and the partials declared at setup.
The bodies of `compute` and `compute_partials` read only their `inputs`
argument and write only their outputs. -/
structure Component where
  num_nodes : ℕ
  decls : List PartialDecl

/-- A component as configured by `setup` for `nn` nodes. -/
def setupComp (nn : ℕ) : Component := ⟨nn, setup nn⟩

/-- The inputs dictionary passed to one evaluation. -/
structure Inputs where
  v : List ℝ
  theta : List ℝ
  g : ℝ

/-- One invocation of `compute` on a component: the method body reads only
`inputs`, so the component state is passed through untouched. -/
noncomputable def compute_step (c : Component) (inp : Inputs) :
    Component × Option RateOutputs :=
  (c, compute inp.v inp.theta inp.g)

/-- One invocation of `compute_partials` on a component. -/
noncomputable def partials_step (c : Component) (inp : Inputs) :
    Component × Option JacOutputs :=
  (c, compute_partials inp.v inp.theta inp.g)

/-- Component state after a sequence of rate evaluations. -/
noncomputable def run_steps (c : Component) (l : List Inputs) : Component :=
  l.foldl (fun s inp => (compute_step s inp).fst) c

theorem run_steps_eq (c : Component) (l : List Inputs) : run_steps c l = c := by
  induction l generalizing c with
  | nil => rfl
  | cons a l ih => simpa [run_steps, compute_step, List.foldl] using ih c

/-- C4: block-diagonal sparsity per node. The pattern declared at setup pairs
row `i` only with column `i` for every Jacobian block except `(vdot, g)`, whose
columns are all `0` (the single shared scalar `g`); the pattern is a function of
`nn` alone and is unchanged by any sequence of evaluations; and for distinct
nodes `i ≠ j`, the derivative of each output at node `i` with respect to `v` or
`theta` at node `j` is exactly zero. -/
theorem jacobian_sparsity (nn : ℕ) (hnn : 1 ≤ nn) (v theta : List ℝ) (g : ℝ)
    (hv : v.length = nn) (ht : theta.length = nn) (i j : ℕ)
    (hi : i < nn) (hj : j < nn) (hij : i ≠ j) :
    (∀ d ∈ setup nn, d.rows = List.range nn) ∧
    (∀ d ∈ setup nn, ¬(d.of = "vdot" ∧ d.wrt = "g") → d.cols = d.rows) ∧
    (∀ d ∈ setup nn, d.of = "vdot" → d.wrt = "g" →
      d.cols = List.replicate nn 0) ∧
    (∀ l : List Inputs, (run_steps (setupComp nn) l).decls = setup nn) ∧
    HasDerivAt (fun x => (computeD (v.set j x) theta g).vdot.getD i 0)
      0 (v.getD j 0) ∧
    HasDerivAt (fun t => (computeD v (theta.set j t) g).vdot.getD i 0)
      0 (theta.getD j 0) ∧
    HasDerivAt (fun x => (computeD (v.set j x) theta g).xdot.getD i 0)
      0 (v.getD j 0) ∧
    HasDerivAt (fun t => (computeD v (theta.set j t) g).xdot.getD i 0)
      0 (theta.getD j 0) ∧
    HasDerivAt (fun x => (computeD (v.set j x) theta g).ydot.getD i 0)
      0 (v.getD j 0) ∧
    HasDerivAt (fun t => (computeD v (theta.set j t) g).ydot.getD i 0)
      0 (theta.getD j 0) := by
  have h : v.length = theta.length := by omega
  have hit : i < theta.length := by omega
  have hiv : i < v.length := by omega
  have hvs : ∀ x : ℝ, (v.set j x).length = theta.length := by
    intro x; rw [List.length_set]; exact h
  have hts : ∀ t : ℝ, v.length = (theta.set j t).length := by
    intro t; rw [List.length_set]; exact h
  have hits : ∀ t : ℝ, i < (theta.set j t).length := by
    intro t; rw [List.length_set]; exact hit
  refine ⟨?_, ?_, ?_, ?_, ?_, ?_, ?_, ?_, ?_, ?_⟩
  · intro d hd
    simp only [setup, List.mem_cons, List.not_mem_nil, or_false] at hd
    rcases hd with rfl | rfl | rfl | rfl | rfl | rfl <;> rfl
  · intro d hd hne
    simp only [setup, List.mem_cons, List.not_mem_nil, or_false] at hd
    rcases hd with rfl | rfl | rfl | rfl | rfl | rfl
    · exact absurd ⟨rfl, rfl⟩ hne
    all_goals rfl
  · intro d hd hof hwrt
    simp only [setup, List.mem_cons, List.not_mem_nil, or_false] at hd
    rcases hd with rfl | rfl | rfl | rfl | rfl | rfl
    · rfl
    all_goals simp_all
  · intro l
    rw [run_steps_eq]
    rfl
  · have e : (fun x : ℝ => (computeD (v.set j x) theta g).vdot.getD i 0) =
        fun _ => g * Real.cos (theta.getD i 0) :=
      funext fun x => computeD_vdot (v.set j x) theta g (hvs x) i hit
    rw [e]; exact hasDerivAt_const _ _
  · have e : (fun t : ℝ => (computeD v (theta.set j t) g).vdot.getD i 0) =
        fun _ => g * Real.cos (theta.getD i 0) := by
      funext t
      rw [computeD_vdot v (theta.set j t) g (hts t) i (hits t),
        list_getD_set_ne theta i j t hij hit]
    rw [e]; exact hasDerivAt_const _ _
  · have e : (fun x : ℝ => (computeD (v.set j x) theta g).xdot.getD i 0) =
        fun _ => v.getD i 0 * Real.sin (theta.getD i 0) := by
      funext x
      rw [computeD_xdot (v.set j x) theta g (hvs x) i hit,
        list_getD_set_ne v i j x hij hiv]
    rw [e]; exact hasDerivAt_const _ _
  · have e : (fun t : ℝ => (computeD v (theta.set j t) g).xdot.getD i 0) =
        fun _ => v.getD i 0 * Real.sin (theta.getD i 0) := by
      funext t
      rw [computeD_xdot v (theta.set j t) g (hts t) i (hits t),
        list_getD_set_ne theta i j t hij hit]
    rw [e]; exact hasDerivAt_const _ _
  · have e : (fun x : ℝ => (computeD (v.set j x) theta g).ydot.getD i 0) =
        fun _ => -v.getD i 0 * Real.cos (theta.getD i 0) := by
      funext x
      rw [computeD_ydot (v.set j x) theta g (hvs x) i hit,
        list_getD_set_ne v i j x hij hiv]
    rw [e]; exact hasDerivAt_const _ _
  · have e : (fun t : ℝ => (computeD v (theta.set j t) g).ydot.getD i 0) =
        fun _ => -v.getD i 0 * Real.cos (theta.getD i 0) := by
      funext t
      rw [computeD_ydot v (theta.set j t) g (hts t) i (hits t),
        list_getD_set_ne theta i j t hij hit]
    rw [e]; exact hasDerivAt_const _ _

/-- Witness for C4 at `nn = 2`, `v = [1, 2]`, `theta = [0, 0]`, `g = 3`,
nodes `i = 0`, `j = 1`. -/
theorem jacobian_sparsity_witness :
    (∀ d ∈ setup 2, d.rows = List.range 2) ∧
    (∀ d ∈ setup 2, ¬(d.of = "vdot" ∧ d.wrt = "g") → d.cols = d.rows) ∧
    (∀ d ∈ setup 2, d.of = "vdot" → d.wrt = "g" →
      d.cols = List.replicate 2 0) ∧
    (∀ l : List Inputs, (run_steps (setupComp 2) l).decls = setup 2) ∧
    HasDerivAt (fun x => (computeD (([(1 : ℝ), 2] : List ℝ).set 1 x) [0, 0] 3).vdot.getD 0 0)
      0 (([(1 : ℝ), 2] : List ℝ).getD 1 0) ∧
    HasDerivAt (fun t => (computeD [(1 : ℝ), 2] (([0, 0] : List ℝ).set 1 t) 3).vdot.getD 0 0)
      0 (([(0 : ℝ), 0] : List ℝ).getD 1 0) ∧
    HasDerivAt (fun x => (computeD (([(1 : ℝ), 2] : List ℝ).set 1 x) [0, 0] 3).xdot.getD 0 0)
      0 (([(1 : ℝ), 2] : List ℝ).getD 1 0) ∧
    HasDerivAt (fun t => (computeD [(1 : ℝ), 2] (([0, 0] : List ℝ).set 1 t) 3).xdot.getD 0 0)
      0 (([(0 : ℝ), 0] : List ℝ).getD 1 0) ∧
    HasDerivAt (fun x => (computeD (([(1 : ℝ), 2] : List ℝ).set 1 x) [0, 0] 3).ydot.getD 0 0)
      0 (([(1 : ℝ), 2] : List ℝ).getD 1 0) ∧
    HasDerivAt (fun t => (computeD [(1 : ℝ), 2] (([0, 0] : List ℝ).set 1 t) 3).ydot.getD 0 0)
      0 (([(0 : ℝ), 0] : List ℝ).getD 1 0) :=
  jacobian_sparsity 2 (by norm_num) [1, 2] [0, 0] 3 rfl rfl 0 1
    (by norm_num) (by norm_num) (by norm_num)

/-- C5: the evaluators are deterministic and stateless. Starting from any
component state and running any two sequences of intervening evaluations, a
call of `compute` (and of `compute_partials`) on identical inputs returns
identical outputs, the component state is never modified, and each result is a
function of the inputs alone. -/
theorem evaluator_stateless (c : Component) (l1 l2 : List Inputs) (inp : Inputs) :
    (compute_step (run_steps c l1) inp).snd =
      (compute_step (run_steps c l2) inp).snd ∧
    (partials_step (run_steps c l1) inp).snd =
      (partials_step (run_steps c l2) inp).snd ∧
    (compute_step (run_steps c l1) inp).fst = c ∧
    (partials_step (run_steps c l1) inp).fst = c ∧
    (compute_step (run_steps c l1) inp).snd = compute inp.v inp.theta inp.g ∧
    (partials_step (run_steps c l1) inp).snd =
      compute_partials inp.v inp.theta inp.g := by
  rw [run_steps_eq, run_steps_eq]
  exact ⟨rfl, rfl, rfl, rfl, rfl, rfl⟩

/-- A driver option value: a string, or an integer such as `max_major_iters = 1000`. -/
inductive OptValue
  | s (v : String)
  | n (v : ℕ)
deriving DecidableEq

/-- Argparse of the brachistochrone script: `--optimizer` defaults to `ParOpt`
and `--algorithm` to `tr`; neither flag declares `choices`, so any string is
accepted by the parser. -/
def parseBrachArgs (optArg algArg : Option String) : String × String :=
  (optArg.getD "ParOpt", algArg.getD "tr")

/-- Embedding of the driver-option selection in the brachistochrone script:
the value finally held by `p.driver.options['optimizer']` paired with the
`p.driver.opt_settings` entries written, as a function of the parsed
`--optimizer` and `--algorithm` strings. -/
def driver_config (optimizer algorithm : String) :
    String × List (String × OptValue) :=
  if optimizer = "SLSQP" then ("SLSQP", [])
  else if algorithm = "tr" then ("ParOpt", [("algorithm", OptValue.s "tr")])
  else ("ParOpt",
    [("algorithm", OptValue.s "ip"),
     ("norm_type", OptValue.s "infinity"),
     ("max_major_iters", OptValue.n 1000),
     ("barrier_strategy", OptValue.s "mehrotra"),
     ("starting_point_strategy", OptValue.s "affine_step"),
     ("qn_type", OptValue.s "bfgs")])

/-- Counterexample to C6: the parsed strings are not forwarded verbatim.
Supplying `--optimizer Foo --algorithm foo`, the driver option `optimizer`
becomes `ParOpt` (not `Foo`) and the driver setting `algorithm` becomes `ip`
(not `foo`). -/
theorem driver_config_not_verbatim :
    (driver_config (parseBrachArgs (some "Foo") (some "foo")).1
        (parseBrachArgs (some "Foo") (some "foo")).2).1 ≠ "Foo" ∧
    List.lookup "algorithm"
        (driver_config (parseBrachArgs (some "Foo") (some "foo")).1
          (parseBrachArgs (some "Foo") (some "foo")).2).2 ≠
      some (OptValue.s "foo") := by
  constructor <;> decide

/-- C6 (amended): the parsed `--optimizer` string is stored verbatim exactly
when it is `SLSQP` or `ParOpt`; any other string is replaced by `ParOpt`. The
parsed `--algorithm` string is consulted only when the stored optimizer is not
`SLSQP`, and is then stored verbatim exactly when it is `tr` or `ip`; any other
string is replaced by `ip`, and when the optimizer is `SLSQP` no `algorithm`
setting is written at all. -/
theorem driver_config_normalized (optimizer algorithm : String) :
    (optimizer = "SLSQP" ∨ optimizer = "ParOpt" →
      (driver_config optimizer algorithm).1 = optimizer) ∧
    (optimizer ≠ "SLSQP" ∧ optimizer ≠ "ParOpt" →
      (driver_config optimizer algorithm).1 = "ParOpt") ∧
    (optimizer ≠ "SLSQP" → algorithm = "tr" ∨ algorithm = "ip" →
      List.lookup "algorithm" (driver_config optimizer algorithm).2 =
        some (OptValue.s algorithm)) ∧
    (optimizer ≠ "SLSQP" → algorithm ≠ "tr" → algorithm ≠ "ip" →
      List.lookup "algorithm" (driver_config optimizer algorithm).2 =
        some (OptValue.s "ip")) ∧
    (optimizer = "SLSQP" →
      List.lookup "algorithm" (driver_config optimizer algorithm).2 = none) := by
  refine ⟨?_, ?_, ?_, ?_, ?_⟩
  · rintro (rfl | rfl)
    · rfl
    · unfold driver_config
      rw [if_neg (by decide)]
      split_ifs <;> rfl
  · rintro ⟨h1, _⟩
    unfold driver_config
    rw [if_neg h1]
    split_ifs <;> rfl
  · rintro h1 (rfl | rfl)
    · unfold driver_config
      rw [if_neg h1, if_pos rfl]
      decide
    · unfold driver_config
      rw [if_neg h1, if_neg (by decide)]
      decide
  · rintro h1 h2 _
    unfold driver_config
    rw [if_neg h1, if_neg h2]
    decide
  · rintro rfl
    unfold driver_config
    rw [if_pos rfl]
    decide

/-- Witness for C6 (amended) at `--optimizer ParOpt --algorithm foo`. -/
theorem driver_config_normalized_witness :
    (driver_config "ParOpt" "foo").1 = "ParOpt" ∧
    List.lookup "algorithm" (driver_config "ParOpt" "foo").2 =
      some (OptValue.s "ip") :=
  ⟨(driver_config_normalized "ParOpt" "foo").1 (Or.inr rfl),
   (driver_config_normalized "ParOpt" "foo").2.2.2.1
     (by decide) (by decide) (by decide)⟩

/-- Argparse of the paraboloid script: one optional `--algorithm` flag with
`choices=['ip', 'tr', 'mma']` and default `'ip'`; a supplied value outside the
choices is rejected by the parser before the script body runs. -/
def parseParaboloidAlgorithm (arg : Option String) : Option String :=
  match arg with
  | none => some "ip"
  | some s => if s = "ip" ∨ s = "tr" ∨ s = "mma" then some s else none

/-- Options of the `ParOptDriver` created by the paraboloid script. -/
structure ParOptDriverOptions where
  algorithm : String
deriving DecidableEq

/-- The paraboloid script assigns `prob.driver.options['algorithm'] =
args.algorithm` unchanged, when parsing succeeded. -/
def paraboloidDriver (arg : Option String) : Option ParOptDriverOptions :=
  (parseParaboloidAlgorithm arg).map (fun a => ⟨a⟩)

/-- C7: the paraboloid script's `--algorithm` flag defaults to `ip`; a supplied
value outside `ip`, `tr`, `mma` is rejected by the parser's choice validation
before the driver runs, and an accepted value is stored unchanged into the
driver's `algorithm` option. -/
theorem paraboloid_algorithm_validated (s : String) :
    parseParaboloidAlgorithm none = some "ip" ∧
    paraboloidDriver none = some ⟨"ip"⟩ ∧
    (s ≠ "ip" → s ≠ "tr" → s ≠ "mma" →
      parseParaboloidAlgorithm (some s) = none ∧
      paraboloidDriver (some s) = none) ∧
    (s = "ip" ∨ s = "tr" ∨ s = "mma" →
      paraboloidDriver (some s) = some ⟨s⟩) := by
  refine ⟨rfl, rfl, ?_, ?_⟩
  · intro h1 h2 h3
    constructor <;>
      simp [parseParaboloidAlgorithm, paraboloidDriver, h1, h2, h3]
  · intro h
    simp [parseParaboloidAlgorithm, paraboloidDriver, h]

/-- Witness for C7 at the rejected value `xyz` and the accepted value `tr`. -/
theorem paraboloid_algorithm_validated_witness :
    (parseParaboloidAlgorithm (some "xyz") = none ∧
      paraboloidDriver (some "xyz") = none) ∧
    paraboloidDriver (some "tr") = some ⟨"tr"⟩ :=
  ⟨(paraboloid_algorithm_validated "xyz").2.2.1
      (by decide) (by decide) (by decide),
   (paraboloid_algorithm_validated "tr").2.2.2 (Or.inr (Or.inl rfl))⟩

/-- C8: the rate and Jacobian evaluations are total. For every real input
arrays `v`, `theta` of the agreed common length and every gravity `g`, both
`compute` and `compute_partials` succeed — no input reaches an error branch. -/
theorem evaluators_total (v theta : List ℝ) (g : ℝ)
    (h : v.length = theta.length) :
    (compute v theta g).isSome ∧ (compute_partials v theta g).isSome := by
  rw [compute_eq_some v theta g h, partials_eq_some v theta g h]
  exact ⟨rfl, rfl⟩

/-- Witness for C8 at `v = [5]`, `theta = [0]`, `g = 2`. -/
theorem evaluators_total_witness :
    (compute [(5 : ℝ)] [0] 2).isSome ∧
    (compute_partials [(5 : ℝ)] [0] 2).isSome :=
  evaluators_total [5] [0] 2 rfl

/-- Assignment `d[k] = xs` on a dictionary: replace the binding of `k` when one
exists, else append it. -/
def setVal (d : List (String × List ℝ)) (k : String) (xs : List ℝ) :
    List (String × List ℝ) :=
  match d with
  | [] => [(k, xs)]
  | (k', v) :: rest =>
      if k' = k then (k, xs) :: rest else (k', v) :: setVal rest k xs

theorem lookup_setVal_ne (d : List (String × List ℝ)) (k k' : String)
    (xs : List ℝ) (h : k' ≠ k) :
    List.lookup k' (setVal d k xs) = List.lookup k' d := by
  have hb : (k' == k) = false := beq_eq_false_iff_ne.mpr h
  induction d with
  | nil => simp [setVal, List.lookup, hb]
  | cons a rest ih =>
    obtain ⟨ka, va⟩ := a
    by_cases hk : ka = k
    · subst hk
      simp [setVal, List.lookup, hb]
    · simp only [setVal, if_neg hk, List.lookup]
      cases hka : k' == ka <;> simp [ih]

/-- Embedding of one `compute(inputs, outputs)` call on the OpenMDAO
dictionaries: the body reads `theta`, `g` and `v` from `inputs` and assigns
`outputs['vdot']`, `outputs['xdot']`, `outputs['ydot']`; the call returns both
dictionaries as the method leaves them. -/
noncomputable def compute_on_dicts (inputs outputs : List (String × List ℝ)) :
    Option (List (String × List ℝ) × List (String × List ℝ)) := do
  let theta ← List.lookup "theta" inputs
  let gs ← List.lookup "g" inputs
  let g ← gs.head?
  let v ← List.lookup "v" inputs
  let o ← compute v theta g
  pure (inputs,
    setVal (setVal (setVal outputs "vdot" o.vdot) "xdot" o.xdot) "ydot" o.ydot)

/-- C9: frame condition of the rate evaluation. A successful `compute` call
returns the inputs dictionary unchanged (so `v`, `theta`, `g` are untouched),
changes no output binding other than `vdot`, `xdot`, `ydot`, and modifies no
component state. -/
theorem compute_frame (inputs outputs i' o' : List (String × List ℝ))
    (c : Component) (inp : Inputs)
    (h : compute_on_dicts inputs outputs = some (i', o')) :
    i' = inputs ∧
    (∀ k, k ≠ "vdot" → k ≠ "xdot" → k ≠ "ydot" →
      List.lookup k o' = List.lookup k outputs) ∧
    (compute_step c inp).fst = c := by
  simp only [compute_on_dicts, bind, Option.bind_eq_some, Option.pure_def,
    Option.some.injEq, Prod.mk.injEq] at h
  obtain ⟨theta, -, gs, -, g, -, v, -, o, -, hi, ho⟩ := h
  subst hi
  subst ho
  refine ⟨rfl, fun k h1 h2 h3 => ?_, rfl⟩
  rw [lookup_setVal_ne _ _ _ _ h3, lookup_setVal_ne _ _ _ _ h2,
    lookup_setVal_ne _ _ _ _ h1]

/-- Witness for C9 at `inputs = [v ↦ [1], g ↦ [2], theta ↦ [0]]` and
`outputs = [foo ↦ [9]]`. -/
theorem compute_frame_witness :
    ([("v", [(1 : ℝ)]), ("g", [2]), ("theta", [0])] :
        List (String × List ℝ)) =
      [("v", [(1 : ℝ)]), ("g", [2]), ("theta", [0])] ∧
    (∀ k, k ≠ "vdot" → k ≠ "xdot" → k ≠ "ydot" →
      List.lookup k
          ([("foo", [(9 : ℝ)]), ("vdot", [2]), ("xdot", [0]), ("ydot", [-1])] :
            List (String × List ℝ)) =
        List.lookup k ([("foo", [(9 : ℝ)])] : List (String × List ℝ))) ∧
    (compute_step (setupComp 1) ⟨[1], [0], 2⟩).fst = setupComp 1 :=
  compute_frame [("v", [1]), ("g", [2]), ("theta", [0])] [("foo", [9])]
    [("v", [1]), ("g", [2]), ("theta", [0])]
    [("foo", [9]), ("vdot", [2]), ("xdot", [0]), ("ydot", [-1])]
    (setupComp 1) ⟨[1], [0], 2⟩
    (by
      simp [compute_on_dicts, compute, npCos, npSin, npNeg, npScale, npMul,
        setVal, List.lookup, Real.cos_zero, Real.sin_zero])

/-- C10: implicit speed-consistency identity. Over the reals, at every node the
outputs of `compute` satisfy `xdot[i]^2 + ydot[i]^2 = v[i]^2`. -/
theorem speed_identity (v theta : List ℝ) (g : ℝ) (N : ℕ)
    (hv : v.length = N) (ht : theta.length = N) (i : ℕ) (hi : i < N) :
    (computeD v theta g).xdot.getD i 0 ^ 2 +
      (computeD v theta g).ydot.getD i 0 ^ 2 = v.getD i 0 ^ 2 := by
  have h : v.length = theta.length := by omega
  rw [computeD_xdot v theta g h i (by omega),
    computeD_ydot v theta g h i (by omega)]
  calc (v.getD i 0 * Real.sin (theta.getD i 0)) ^ 2 +
        (-v.getD i 0 * Real.cos (theta.getD i 0)) ^ 2
      = v.getD i 0 ^ 2 *
          (Real.sin (theta.getD i 0) ^ 2 + Real.cos (theta.getD i 0) ^ 2) := by
        ring
    _ = v.getD i 0 ^ 2 := by rw [Real.sin_sq_add_cos_sq, mul_one]

/-- Witness for C10 at `v = [5]`, `theta = [0]`, `g = 2`, node `i = 0`. -/
theorem speed_identity_witness :
    (computeD [(5 : ℝ)] [0] 2).xdot.getD 0 0 ^ 2 +
      (computeD [(5 : ℝ)] [0] 2).ydot.getD 0 0 ^ 2 =
      ([(5 : ℝ)] : List ℝ).getD 0 0 ^ 2 :=
  speed_identity [5] [0] 2 1 rfl rfl 0 (by norm_num)

end Paropt
